import Mathlib

/-!
Verification of `upload_pkg_internetarchive.py` (arch-historical-archive).

The development shallowly embeds the script's functions:
* `parsePkginfo` / `extract_pkginfo` embed `extract_pkginfo` (tar streaming loop
  plus the line regex `([^=]*) = (.*)` and `str.strip`);
* `clean_name`, `basename`, `identifierOfDir` embed identifier derivation in `main`;
* `matchAt` / `findYearGreedy` embed `re.match` with `SYMLINK_YEAR_REGEXP`;
* `selectFiles`, `lastPkgOf`, `upload_pkg` embed the directory scan, the
  representative-file choice `sorted(filter(...))[-1]`, metadata assembly and
  the upload result handling.
-/

/-- Whitespace characters stripped by Python's `str.strip()` (ASCII subset). -/
def pyIsSpace (c : Char) : Bool :=
  c = ' ' || c = '\t' || c = '\n' || c = '\r' || c = '\x0b' || c = '\x0c'

/-- Python `str.strip()`: drop whitespace from both ends of a character list. -/
def pyStrip (l : List Char) : List Char :=
  ((l.dropWhile pyIsSpace).reverse.dropWhile pyIsSpace).reverse

/-- Python `str.endswith(suffix)`. -/
def pyEndsWith (s : String) (suffix : String) : Bool :=
  suffix.data.isSuffixOf s.data

/-- Matcher for the Python regex `([^=]*) = (.*)` used with `re.match`:
`acc` holds the (reversed) characters scanned so far, none of which is `'='`.
When the first `'='` is reached, the regex matches exactly when it is directly
preceded and followed by a space; group 1 is everything before that space and
group 2 is the rest of the line up to a newline (`.` does not match `'\n'`). -/
def reMatchKV (acc : List Char) : List Char → Option (List Char × List Char)
  | [] => none
  | c :: rest =>
    if c = '=' then
      match acc, rest with
      | ' ' :: accT, ' ' :: rest2 => some (accT.reverse, rest2.takeWhile (fun d => d != '\n'))
      | _, _ => none
    else reMatchKV (c :: acc) rest

/-- One `.PKGINFO` line through `re.match(r'([^=]*) = (.*)', line)`; on a match
the value is `m[2].strip()`, the key is `m[1]` (taken verbatim, not stripped). -/
def pyMatchLine (line : String) : Option (String × String) :=
  (reMatchKV [] line.data).map fun p => (String.mk p.1, String.mk (pyStrip p.2))

/-- Python `dict` insertion on an association list with unique keys: an existing
key keeps its position but gets the new value, a new key is appended. -/
def dictInsert (d : List (String × String)) (k v : String) : List (String × String) :=
  if d.any (fun p => p.1 == k) then d.map (fun p => if p.1 == k then (k, v) else p)
  else d ++ [(k, v)]

/-- Python `dict` lookup (`d[k]` / `k in d`) as an option. -/
def dictGet (d : List (String × String)) (k : String) : Option String :=
  (d.find? (fun p => p.1 == k)).map (fun p => p.2)

/-- Splitter matching Python `readlines()`: each line keeps its trailing
newline; a final fragment without a newline is kept, an empty tail is not. -/
def readlinesAux (acc : List Char) : List Char → List String
  | [] => if acc = [] then [] else [String.mk acc.reverse]
  | c :: rest =>
    if c = '\n' then String.mk (acc.reverse ++ ['\n']) :: readlinesAux [] rest
    else readlinesAux (c :: acc) rest

/-- Python `readlines()` over the decoded `.PKGINFO` content. -/
def readlines (s : String) : List String := readlinesAux [] s.data

/-- Folding step of the `.PKGINFO` parsing loop (lines 39-44 of the script). -/
def pyStep (d : List (String × String)) (line : String) : List (String × String) :=
  match pyMatchLine line with
  | some kv => dictInsert d kv.1 kv.2
  | none => d

/-- Parsing part of `extract_pkginfo`: fold the line parser over the content. -/
def parsePkginfo (content : String) : List (String × String) :=
  (readlines content).foldl pyStep []

/-- One member of the tar container's entry stream. -/
structure TarEntry where
  name : String
  content : String
deriving DecidableEq

/-- Exceptions of the script that can cross `upload_pkg`'s boundary.
`formatError` abstracts the failure of the `.PKGINFO` search loop when the
entry stream ends, `keyError` a missing mandatory `.PKGINFO` key, and
`indexError` the `sorted(...)[-1]` on an empty list of non-signature files. -/
inductive PyErr where
  | formatError
  | keyError (key : String)
  | indexError
deriving DecidableEq

/-- Embedding of `extract_pkginfo`: scan the entry stream for the first entry
named exactly `.PKGINFO` (the `while True: f = tar.next()` loop stops there);
if the stream ends first the call fails, otherwise the entry's text content is
parsed into a mapping. -/
def extract_pkginfo (entries : List TarEntry) : Except PyErr (List (String × String)) :=
  match entries.find? (fun e => e.name == ".PKGINFO") with
  | none => .error .formatError
  | some e => .ok (parsePkginfo e.content)

example : parsePkginfo "pkgdesc = A tool\nurl = https://example.org\nlicense = MIT\n" =
    [("pkgdesc", "A tool"), ("url", "https://example.org"), ("license", "MIT")] := by decide

example : parsePkginfo "" = [] := by decide

example : parsePkginfo "a  = b\n" = [("a ", "b")] := by decide

example : parsePkginfo "license = X\nlicense = Y\n" = [("license", "Y")] := by decide

/-- Python `str.replace(old, new)` for single-character arguments. -/
def replaceChar (old new : Char) (s : String) : String :=
  String.mk (s.data.map (fun c => if c = old then new else c))

/-- Embedding of `clean_name`: the three successive `str.replace` calls that
turn `@`, `+` and `.` into `_`. -/
def clean_name (s : String) : String :=
  replaceChar '.' '_' (replaceChar '+' '_' (replaceChar '@' '_' s))

/-- Helper for `os.path.basename`: keep the characters after the last `/`. -/
def basenameAux (acc : List Char) : List Char → List Char
  | [] => acc.reverse
  | c :: rest => if c = '/' then basenameAux [] rest else basenameAux (c :: acc) rest

/-- Embedding of `os.path.basename` on POSIX paths. -/
def basename (p : String) : String := String.mk (basenameAux [] p.data)

/-- Identifier derivation of `main` from the package name (line 89):
`clean_name('archlinux_pkg_' + pkgname)`. -/
def identifierOfName (pkgname : String) : String :=
  clean_name ("archlinux_pkg_" ++ pkgname)

/-- Identifier of a package directory (`pkgname = os.path.basename(pkg_dir)`). -/
def identifierOfDir (pkgDir : String) : String :=
  identifierOfName (basename pkgDir)

/-- Characters an Internet Archive identifier may contain according to the
docstring of `clean_name`: alphanumerics, `-` and `_`. -/
def identAllowed (c : Char) : Bool := c.isAlphanum || c = '-' || c = '_'

/-- Attempt of the tail of `SYMLINK_YEAR_REGEXP` (`/repos/([0-9]{4})/`) at the
start of `cs`, returning the captured year on success. -/
def matchAt (cs : List Char) : Option (List Char) :=
  match cs with
  | c0 :: c1 :: c2 :: c3 :: c4 :: c5 :: c6 :: d1 :: d2 :: d3 :: d4 :: c11 :: _ =>
    if c0 = '/' ∧ c1 = 'r' ∧ c2 = 'e' ∧ c3 = 'p' ∧ c4 = 'o' ∧ c5 = 's' ∧ c6 = '/' ∧
        d1.isDigit = true ∧ d2.isDigit = true ∧ d3.isDigit = true ∧ d4.isDigit = true ∧
        c11 = '/' then
      some [d1, d2, d3, d4]
    else none
  | _ => none

/-- Embedding of `re.match(SYMLINK_YEAR_REGEXP, path)` for the pattern
`.*/repos/([0-9]{4})/`: the greedy `.*` (which cannot cross a newline)
prefers the latest position at which the tail matches, so the recursion first
looks for a match later in the string and only then tries the current
position. -/
def findYearGreedy : List Char → Option (List Char)
  | [] => none
  | c :: rest =>
    if c = '\n' then matchAt (c :: rest)
    else
      match findYearGreedy rest with
      | some y => some y
      | none => matchAt (c :: rest)

/-- One `os.scandir` result: the entry's path, whether it is a symbolic link,
and (when it is one) the raw `os.readlink` target string. -/
structure DirEntry where
  path : String
  isSymlink : Bool
  linkTarget : String
deriving DecidableEq

/-- Body of the selection loop of `upload_pkg` for a single entry: skip
non-symlinks, skip targets the year regex does not match, skip years outside
the filter, otherwise keep `f.path`. -/
def keepEntry (years : List String) (f : DirEntry) : Option String :=
  if !f.isSymlink then none
  else
    match findYearGreedy f.linkTarget.data with
    | none => none
    | some y => if String.mk y ∈ years then some f.path else none

/-- Selection loop of `upload_pkg` (lines 50-61): the kept batch, in directory
enumeration order. -/
def selectFiles (entries : List DirEntry) (years : List String) : List String :=
  entries.filterMap (keepEntry years)

/-- Python `<` on strings: lexicographic comparison of code points, a proper
prefix being smaller. -/
def pyLtChars : List Char → List Char → Bool
  | _, [] => false
  | [], _ :: _ => true
  | a :: as, b :: bs =>
    if a.toNat < b.toNat then true
    else if b.toNat < a.toNat then false
    else pyLtChars as bs

/-- Order underlying Python's `sorted` on strings (`a ≤ b` as `not (b < a)`). -/
def pyStrLe (a b : String) : Bool := !pyLtChars b.data a.data

/-- The order of `sorted` as a binary relation. -/
def pyLeRel (a b : String) : Prop := pyStrLe a b = true

instance : DecidableRel pyLeRel := fun a b =>
  inferInstanceAs (Decidable (pyStrLe a b = true))

/-- Representative-file choice of `upload_pkg` (line 65):
`sorted(filter(lambda x: not x.endswith('.sig'), files))[-1]`, `none` standing
for the `IndexError` of `[-1]` on an empty list. -/
def lastPkgOf (files : List String) : Option String :=
  (List.insertionSort pyLeRel (files.filter (fun x => !pyEndsWith x ".sig"))).getLast?

/-- The `DESCRIPTION` template with its four fields substituted. -/
def descriptionText (pkgname pkgdesc url license : String) : String :=
  pkgdesc ++
  "\n\nThis item contains old versions of the <a href=\"https://www.archlinux.org/packages/" ++
  pkgname ++ "\">Arch Linux package for " ++ pkgname ++
  "</a>.\nWebsite of the upstream project: <a href=\"" ++ url ++ "\">" ++ url ++
  "</a>\nLicense: " ++ license ++
  "\nSee the <a href=\"https://wiki.archlinux.org/index.php/Arch_Linux_Archive\">Arch Linux Archive documentation</a> for details.\n"

/-- The `pkgdesc` default of line 67:
`pkginfo['pkgdesc'] if 'pkgdesc' in pkginfo else ''`. -/
def pkgdescOf (pkginfo : List (String × String)) : String :=
  if (dictGet pkginfo "pkgdesc").isSome then (dictGet pkginfo "pkgdesc").getD "" else ""

/-- Outcome of the single `ia.upload` call: either a status code per uploaded
file, or an exception raised by the interface itself. -/
inductive UploadOutcome where
  | results (codes : List Nat)
  | raises (msg : String)
deriving DecidableEq

/-- Content of the partial-failure diagnostic printed to `sys.stderr`:
`"{identifier}: only {ok}/{ok+nok} files uploaded, status codes: {codes}"`. -/
structure Report where
  identifier : String
  okCount : Nat
  totalCount : Nat
  codes : Finset Nat
deriving DecidableEq

/-- Observable behaviour of one `upload_pkg` run that returns normally. -/
structure RunResult where
  representative : Option String
  uploadCalled : Bool
  uploadedFiles : List String
  description : Option String
  rights : Option String
  stderrReport : Option Report
  stderrExc : Option (String × String)
  stdoutLines : List String
deriving DecidableEq

/-- Embedding of `upload_pkg(identifier, pkgname, metadata, directory, years)`.
The directory scan is the `entries` list, the tar container of a path is
`containerOf path`, and the single `ia.upload` call's behaviour is `outcome`.
A normal return is `.ok` carrying the observable effects; `.error` is an
exception escaping `upload_pkg` (extraction failure, missing mandatory key, or
the `[-1]` on an empty non-signature list). The `try` block only covers the
upload call, so `raises` outcomes are caught and reported while the earlier
steps are not protected. -/
def upload_pkg (identifier pkgname directory : String) (entries : List DirEntry)
    (years : List String) (containerOf : String → List TarEntry)
    (outcome : UploadOutcome) : Except PyErr RunResult :=
  let files := selectFiles entries years
  if files.isEmpty then
    .ok ⟨none, false, [], none, none, none, none, []⟩
  else
    match lastPkgOf files with
    | none => .error .indexError
    | some lastPkg =>
      match extract_pkginfo (containerOf lastPkg) with
      | .error e => .error e
      | .ok pkginfo =>
        let pkgdesc := pkgdescOf pkginfo
        match dictGet pkginfo "url" with
        | none => .error (.keyError "url")
        | some url =>
          match dictGet pkginfo "license" with
          | none => .error (.keyError "license")
          | some license =>
            let desc := descriptionText pkgname pkgdesc url license
            let rights := "License: " ++ license
            match outcome with
            | .raises msg =>
              .ok ⟨some lastPkg, true, files, some desc, some rights, none,
                   some (identifier, msg), [directory]⟩
            | .results codes =>
              if codes.all (fun c => c == 200) then
                .ok ⟨some lastPkg, true, files, some desc, some rights, none, none, []⟩
              else
                .ok ⟨some lastPkg, true, files, some desc, some rights,
                     some ⟨identifier, (codes.filter (fun c => c == 200)).length,
                       (codes.filter (fun c => c == 200)).length +
                         (codes.filter (fun c => c != 200)).length,
                       codes.toFinset⟩,
                     none, [directory]⟩

example : identifierOfDir "foo+bar@1.2" = "archlinux_pkg_foo_bar_1_2" := by decide

example : findYearGreedy "/pool/repos/2013/x".data = some ['2', '0', '1', '3'] := by decide

example : findYearGreedy "/pool/repos/2013/a/repos/2014/x".data = some ['2', '0', '1', '4'] := by
  decide

example : findYearGreedy "repos/2013/x".data = none := by decide

example :
    lastPkgOf ["pkg-1.0.tar.xz", "pkg-1.0.tar.xz.sig", "pkg-2.0.tar.xz", "pkg-2.0.tar.xz.sig"] =
      some "pkg-2.0.tar.xz" := by decide

/-- Right-only strip (trailing whitespace/newline removal). -/
def pyStripRight (l : List Char) : List Char := (l.reverse.dropWhile pyIsSpace).reverse

/-- Generalised declarative reading of the regex matcher `reMatchKV`: with the
already-scanned (reversed, `=`-free) prefix `acc`, the regex matches exactly
when the first `=` of `cs` is directly preceded and followed by a space; group
1 is everything before that space, group 2 the remainder up to a newline. -/
def specAux (acc cs : List Char) : Option (List Char × List Char) :=
  let before := cs.takeWhile (fun c => c != '=')
  let rest := cs.drop before.length
  if rest.take 2 = ['=', ' '] ∧ (acc.reverse ++ before).getLast? = some ' ' then
    some ((acc.reverse ++ before).dropLast, (rest.drop 2).takeWhile (fun d => d != '\n'))
  else none

/-- Declarative line rule (amended spec wording): a line contributes an entry
exactly when its first `=` is directly preceded and followed by one space; the
key is the text before that space (taken verbatim) and the value is the text
after `'= '` stripped of leading and trailing whitespace. -/
def specMatchLine (line : String) : Option (String × String) :=
  (specAux [] line.data).map fun p => (String.mk p.1, String.mk (pyStrip p.2))

/-- Folding step using the declarative line rule. -/
def specStep (d : List (String × String)) (line : String) : List (String × String) :=
  match specMatchLine line with
  | some kv => dictInsert d kv.1 kv.2
  | none => d

/-- Line rule as the claim words it: key is the text before the first `=`
trimmed of surrounding whitespace, value is the text after the first `' = '`
trimmed of trailing whitespace/newline only. -/
def claimMatchLine (line : String) : Option (String × String) :=
  let cs := line.data
  let before := cs.takeWhile (fun c => c != '=')
  let rest := cs.drop before.length
  if rest.take 2 = ['=', ' '] ∧ before.getLast? = some ' ' then
    some (String.mk (pyStrip before), String.mk (pyStripRight (rest.drop 2)))
  else none

/-- Folding step using the claim's wording of the line rule. -/
def claimStep (d : List (String × String)) (line : String) : List (String × String) :=
  match claimMatchLine line with
  | some kv => dictInsert d kv.1 kv.2
  | none => d

/-- The mapping the claim's wording prescribes for a `.PKGINFO` content. -/
def claimParse (content : String) : List (String × String) :=
  (readlines content).foldl claimStep []

theorem reMatchKV_eq_specAux : ∀ cs acc : List Char, reMatchKV acc cs = specAux acc cs := by
  intro cs
  induction cs with
  | nil => intro acc; simp [reMatchKV, specAux]
  | cons c rest ih =>
    intro acc
    by_cases hc : c = '='
    · subst hc
      rcases rest with _ | ⟨r, rest2⟩
      · rcases acc with _ | ⟨a, accT⟩ <;> simp [reMatchKV, specAux]
      · by_cases hr : r = ' '
        · subst hr
          rcases acc with _ | ⟨a, accT⟩
          · simp [reMatchKV, specAux]
          · by_cases ha : a = ' '
            · subst ha
              simp [reMatchKV, specAux, List.getLast?_concat, List.dropLast_concat]
            · simp [reMatchKV, specAux, List.getLast?_concat, ha]
        · rcases acc with _ | ⟨a, accT⟩ <;> simp [reMatchKV, specAux, hr]
    · have h1 : reMatchKV acc (c :: rest) = reMatchKV (c :: acc) rest := by
        simp [reMatchKV, hc]
      rw [h1, ih (c :: acc)]
      simp [specAux, List.takeWhile_cons, hc, List.append_assoc]

theorem pyMatchLine_eq_specMatchLine (line : String) : pyMatchLine line = specMatchLine line := by
  simp [pyMatchLine, specMatchLine, reMatchKV_eq_specAux]

theorem pyStep_eq_specStep : pyStep = specStep := by
  funext d line
  simp [pyStep, specStep, pyMatchLine_eq_specMatchLine]

/-- C1 (counterexample): on the content `"a  = b\n"` the code keeps the key
`"a "` verbatim (only the single delimiter space is consumed by the regex),
while the claim's rule (key is the text before the first `=`, trimmed)
prescribes `"a"`; so the parsed mapping differs from the claimed one. -/
theorem c1_extract_counterexample :
    parsePkginfo "a  = b\n" ≠ claimParse "a  = b\n" ∧
    parsePkginfo "a  = b\n" = [("a ", "b")] ∧
    claimParse "a  = b\n" = [("a", "b")] :=
  ⟨by decide, by decide, by decide⟩

/-- C1 (amended): `extract_pkginfo` parses a `.PKGINFO` content by folding over
its lines in order; a line contributes an entry exactly when its first `=` is
directly preceded and followed by one space, the key being the text before that
single delimiter space (taken verbatim, not trimmed) and the value being the
text after `'= '` stripped of leading and trailing whitespace; a recurring key
is silently overwritten by the later line's value; the example content yields
exactly the claimed mapping and the empty content yields the empty mapping. -/
theorem c1_extract_parses_lines :
    (∀ content : String, parsePkginfo content = (readlines content).foldl specStep []) ∧
    parsePkginfo "pkgdesc = A tool\nurl = https://example.org\nlicense = MIT\n" =
      [("pkgdesc", "A tool"), ("url", "https://example.org"), ("license", "MIT")] ∧
    parsePkginfo "" = [] ∧
    parsePkginfo "license = X\nlicense = Y\n" = [("license", "Y")] ∧
    extract_pkginfo
        [⟨".PKGINFO", "pkgdesc = A tool\nurl = https://example.org\nlicense = MIT\n"⟩] =
      .ok [("pkgdesc", "A tool"), ("url", "https://example.org"), ("license", "MIT")] := by
  refine ⟨fun content => ?_, by decide, by decide, by decide, rfl⟩
  rw [parsePkginfo, pyStep_eq_specStep]

theorem matchAt_some {cs y : List Char} (h : matchAt cs = some y) :
    ∃ post, cs = '/' :: 'r' :: 'e' :: 'p' :: 'o' :: 's' :: '/' :: (y ++ '/' :: post) ∧
      y.length = 4 ∧ ∀ c ∈ y, c.isDigit = true := by
  unfold matchAt at h
  split at h
  · rename_i c0 c1 c2 c3 c4 c5 c6 d1 d2 d3 d4 c11 tail
    split at h
    · rename_i hcond
      obtain ⟨h0, h1, h2, h3, h4, h5, h6, hd1, hd2, hd3, hd4, h11⟩ := hcond
      obtain rfl : y = [d1, d2, d3, d4] := by injection h with h'; exact h'.symm
      subst h0 h1 h2 h3 h4 h5 h6 h11
      exact ⟨tail, rfl, rfl, by simp [hd1, hd2, hd3, hd4]⟩
    · exact absurd h (by simp)
  · exact absurd h (by simp)

theorem findYearGreedy_decomp : ∀ cs y : List Char, findYearGreedy cs = some y →
    ∃ pre post,
      cs = pre ++ '/' :: 'r' :: 'e' :: 'p' :: 'o' :: 's' :: '/' :: (y ++ '/' :: post) ∧
      y.length = 4 ∧ (∀ c ∈ y, c.isDigit = true) ∧ '\n' ∉ pre := by
  intro cs
  induction cs with
  | nil => intro y h; simp [findYearGreedy] at h
  | cons c rest ih =>
    intro y h
    rw [findYearGreedy] at h
    by_cases hc : c = '\n'
    · rw [if_pos hc] at h
      obtain ⟨post, hEq, -, -⟩ := matchAt_some h
      injection hEq with h1 _
      rw [hc] at h1
      exact absurd h1 (by decide)
    · rw [if_neg hc] at h
      cases hfr : findYearGreedy rest with
      | some y0 =>
        rw [hfr] at h
        have hy : y0 = y := by
          injection (show (some y0 : Option (List Char)) = some y from h) with h'
        subst hy
        obtain ⟨pre0, post, hEq, h4, hd, hnl⟩ := ih y0 hfr
        refine ⟨c :: pre0, post, by simp [hEq], h4, hd, ?_⟩
        simp only [List.mem_cons, not_or]
        exact ⟨fun hh => hc hh.symm, hnl⟩
      | none =>
        rw [hfr] at h
        obtain ⟨post, hEq, h4, hd⟩ :=
          matchAt_some (show matchAt (c :: rest) = some y from h)
        exact ⟨[], post, by simpa using hEq, h4, hd, by simp⟩

theorem findYearGreedy_total :
    ∀ (pre : List Char) (d1 d2 d3 d4 : Char) (post : List Char),
    '\n' ∉ pre → d1.isDigit = true → d2.isDigit = true → d3.isDigit = true →
    d4.isDigit = true →
    (findYearGreedy (pre ++ '/' :: 'r' :: 'e' :: 'p' :: 'o' :: 's' :: '/' ::
      (d1 :: d2 :: d3 :: d4 :: '/' :: post))).isSome = true := by
  intro pre
  induction pre with
  | nil =>
    intro d1 d2 d3 d4 post _ h1 h2 h3 h4
    simp only [List.nil_append]
    rw [findYearGreedy, if_neg (by decide : ¬('/' : Char) = '\n')]
    cases hfr : findYearGreedy ('r' :: 'e' :: 'p' :: 'o' :: 's' :: '/' ::
        (d1 :: d2 :: d3 :: d4 :: '/' :: post)) with
    | some y => simp
    | none =>
      have hm : matchAt ('/' :: 'r' :: 'e' :: 'p' :: 'o' :: 's' :: '/' ::
          (d1 :: d2 :: d3 :: d4 :: '/' :: post)) = some [d1, d2, d3, d4] := by
        rw [matchAt, if_pos]
        exact ⟨rfl, rfl, rfl, rfl, rfl, rfl, rfl, h1, h2, h3, h4, rfl⟩
      simp [hm]
  | cons c pre0 ih =>
    intro d1 d2 d3 d4 post hnl h1 h2 h3 h4
    have hc : c ≠ '\n' := fun hh => hnl (by simp [hh])
    have hrec := ih d1 d2 d3 d4 post (fun hm => hnl (List.mem_cons_of_mem _ hm)) h1 h2 h3 h4
    obtain ⟨y, hy⟩ := Option.isSome_iff_exists.mp hrec
    simp only [List.cons_append]
    rw [findYearGreedy, if_neg hc, hy]
    rfl

theorem keepEntry_some_iff (years : List String) (e : DirEntry) (p : String) :
    keepEntry years e = some p ↔
      e.isSymlink = true ∧ e.path = p ∧
        ∃ y, findYearGreedy e.linkTarget.data = some y ∧ String.mk y ∈ years := by
  unfold keepEntry
  cases hs : e.isSymlink with
  | false => simp
  | true =>
    simp only [Bool.not_true, Bool.false_eq_true, if_false, true_and]
    cases hfy : findYearGreedy e.linkTarget.data with
    | none => simp
    | some y0 =>
      by_cases hy : String.mk y0 ∈ years
      · simp only [if_pos hy, Option.some.injEq]
        constructor
        · intro h; exact ⟨h, y0, rfl, hy⟩
        · rintro ⟨hp, y1, hy1, -⟩; exact hp
      · simp only [if_neg hy]
        constructor
        · intro h; exact absurd h (by simp)
        · rintro ⟨-, y1, hy1, hmem⟩
          injection hy1 with h'
          exact absurd hmem (h' ▸ hy)

/-- C2: the kept batch contains exactly the entries that are symbolic links
whose raw link target matches `SYMLINK_YEAR_REGEXP` and whose captured year is
in the supplied year set; any returned capture is a four-digit group directly
after a `/repos/` component, and any target containing such a group (with no
newline before it) does match. -/
theorem c2_year_filter_correct :
    (∀ (entries : List DirEntry) (years : List String) (p : String),
      p ∈ selectFiles entries years ↔
        ∃ e ∈ entries, e.path = p ∧ e.isSymlink = true ∧
          ∃ y, findYearGreedy e.linkTarget.data = some y ∧ String.mk y ∈ years) ∧
    (∀ cs y : List Char, findYearGreedy cs = some y →
      ∃ pre post,
        cs = pre ++ '/' :: 'r' :: 'e' :: 'p' :: 'o' :: 's' :: '/' :: (y ++ '/' :: post) ∧
        y.length = 4 ∧ (∀ c ∈ y, c.isDigit = true) ∧ '\n' ∉ pre) ∧
    (∀ (pre : List Char) (d1 d2 d3 d4 : Char) (post : List Char),
      '\n' ∉ pre → d1.isDigit = true → d2.isDigit = true → d3.isDigit = true →
      d4.isDigit = true →
      (findYearGreedy (pre ++ '/' :: 'r' :: 'e' :: 'p' :: 'o' :: 's' :: '/' ::
        (d1 :: d2 :: d3 :: d4 :: '/' :: post))).isSome = true) := by
  refine ⟨?_, findYearGreedy_decomp, findYearGreedy_total⟩
  intro entries years p
  simp only [selectFiles, List.mem_filterMap, keepEntry_some_iff]
  constructor
  · rintro ⟨e, he, hsym, hpath, hy⟩
    exact ⟨e, he, hpath, hsym, hy⟩
  · rintro ⟨e, he, hpath, hsym, hy⟩
    exact ⟨e, he, hsym, hpath, hy⟩

/-- Concrete symlink entry used to instantiate the year-filter theorem. -/
def wEntry : DirEntry :=
  ⟨"pkg-0.1-1-x86_64.pkg.tar.xz", true,
   "../../../pool/packages/repos/2013/pkg-0.1-1-x86_64.pkg.tar.xz"⟩

theorem c2_year_filter_correct_witness :
    ("pkg-0.1-1-x86_64.pkg.tar.xz" ∈ selectFiles [wEntry] ["2013", "2014"]) ∧
    (∃ pre post,
      "/pool/repos/2013/x".data = pre ++ '/' :: 'r' :: 'e' :: 'p' :: 'o' :: 's' :: '/' ::
        (['2', '0', '1', '3'] ++ '/' :: post) ∧
      (['2', '0', '1', '3'] : List Char).length = 4 ∧
      (∀ c ∈ (['2', '0', '1', '3'] : List Char), c.isDigit = true) ∧ '\n' ∉ pre) ∧
    (findYearGreedy ("ab".data ++ '/' :: 'r' :: 'e' :: 'p' :: 'o' :: 's' :: '/' ::
      ('2' :: '0' :: '1' :: '4' :: '/' :: "x".data))).isSome = true :=
  ⟨(c2_year_filter_correct.1 [wEntry] ["2013", "2014"] "pkg-0.1-1-x86_64.pkg.tar.xz").mpr
      ⟨wEntry, by decide, rfl, rfl, ['2', '0', '1', '3'], by decide, by decide⟩,
   c2_year_filter_correct.2.1 "/pool/repos/2013/x".data ['2', '0', '1', '3'] (by decide),
   c2_year_filter_correct.2.2 "ab".data '2' '0' '1' '4' "x".data (by decide)
     (by decide) (by decide) (by decide) (by decide)⟩

theorem charToNat_inj {a b : Char} (h : a.toNat = b.toNat) : a = b :=
  Char.ext (UInt32.toNat.inj h)

theorem pyLt_irrefl : ∀ as : List Char, pyLtChars as as = false := by
  intro as
  induction as with
  | nil => rfl
  | cons a t ih => simp [pyLtChars, ih]

theorem pyLt_asymm : ∀ as bs : List Char, pyLtChars as bs = true → pyLtChars bs as = false := by
  intro as
  induction as with
  | nil =>
    intro bs h
    cases bs with
    | nil => exact absurd h (by simp [pyLtChars])
    | cons b bt => rfl
  | cons a as0 ih =>
    intro bs h
    cases bs with
    | nil => exact absurd h (by simp [pyLtChars])
    | cons b bt =>
      unfold pyLtChars at h ⊢
      by_cases h1 : a.toNat < b.toNat
      · rw [if_neg (Nat.lt_asymm h1), if_pos h1]
      · rw [if_neg h1] at h
        by_cases h2 : b.toNat < a.toNat
        · rw [if_pos h2] at h; exact absurd h (by simp)
        · rw [if_neg h2] at h
          rw [if_neg h2, if_neg h1]
          exact ih bt h

theorem pyLt_trans : ∀ as bs cs : List Char,
    pyLtChars as bs = true → pyLtChars bs cs = true → pyLtChars as cs = true := by
  intro as
  induction as with
  | nil =>
    intro bs cs h1 h2
    cases bs with
    | nil => simp [pyLtChars] at h1
    | cons b bt =>
      cases cs with
      | nil => simp [pyLtChars] at h2
      | cons c ct => rfl
  | cons a as0 ih =>
    intro bs cs h1 h2
    cases bs with
    | nil => simp [pyLtChars] at h1
    | cons b bt =>
      cases cs with
      | nil => simp [pyLtChars] at h2
      | cons c ct =>
        unfold pyLtChars at h1 h2 ⊢
        by_cases hab : a.toNat < b.toNat <;> by_cases hbc : b.toNat < c.toNat
        · rw [if_pos (Nat.lt_trans hab hbc)]
        · rw [if_neg hbc] at h2
          by_cases hcb : c.toNat < b.toNat
          · rw [if_pos hcb] at h2; exact absurd h2 (by simp)
          · have hbceq : b.toNat = c.toNat :=
              Nat.le_antisymm (Nat.le_of_not_lt hcb) (Nat.le_of_not_lt hbc)
            rw [if_pos (hbceq ▸ hab : a.toNat < c.toNat)]
        · rw [if_neg hab] at h1
          by_cases hba : b.toNat < a.toNat
          · rw [if_pos hba] at h1; exact absurd h1 (by simp)
          · have habeq : a.toNat = b.toNat :=
              Nat.le_antisymm (Nat.le_of_not_lt hba) (Nat.le_of_not_lt hab)
            rw [if_pos (habeq ▸ hbc : a.toNat < c.toNat)]
        · rw [if_neg hab] at h1
          rw [if_neg hbc] at h2
          by_cases hba : b.toNat < a.toNat
          · rw [if_pos hba] at h1; exact absurd h1 (by simp)
          · rw [if_neg hba] at h1
            by_cases hcb : c.toNat < b.toNat
            · rw [if_pos hcb] at h2; exact absurd h2 (by simp)
            · rw [if_neg hcb] at h2
              have habeq : a.toNat = b.toNat :=
                Nat.le_antisymm (Nat.le_of_not_lt hba) (Nat.le_of_not_lt hab)
              have hbceq : b.toNat = c.toNat :=
                Nat.le_antisymm (Nat.le_of_not_lt hcb) (Nat.le_of_not_lt hbc)
              have hac : ¬a.toNat < c.toNat := by
                rw [habeq, hbceq]; exact Nat.lt_irrefl _
              have hca : ¬c.toNat < a.toNat := by
                rw [habeq, hbceq]; exact Nat.lt_irrefl _
              rw [if_neg hac, if_neg hca]
              exact ih bt ct h1 h2

theorem pyLt_connex : ∀ as bs : List Char,
    pyLtChars as bs = false → pyLtChars bs as = false → as = bs := by
  intro as
  induction as with
  | nil =>
    intro bs h1 h2
    cases bs with
    | nil => rfl
    | cons b bt => simp [pyLtChars] at h1
  | cons a as0 ih =>
    intro bs h1 h2
    cases bs with
    | nil => simp [pyLtChars] at h2
    | cons b bt =>
      unfold pyLtChars at h1 h2
      by_cases hab : a.toNat < b.toNat
      · rw [if_pos hab] at h1; exact absurd h1 (by simp)
      · rw [if_neg hab] at h1
        by_cases hba : b.toNat < a.toNat
        · rw [if_pos hba] at h2; exact absurd h2 (by simp)
        · rw [if_neg hba] at h1
          rw [if_neg hba, if_neg hab] at h2
          have hchar : a = b :=
            charToNat_inj (Nat.le_antisymm (Nat.le_of_not_lt hba) (Nat.le_of_not_lt hab))
          rw [hchar, ih bt h1 h2]

theorem pyStrLe_iff (a b : String) : pyStrLe a b = true ↔ pyLtChars b.data a.data = false := by
  simp [pyStrLe]

instance pyLeRel_isTotal : IsTotal String pyLeRel := ⟨by
  intro a b
  unfold pyLeRel
  cases hx : pyLtChars b.data a.data with
  | false => left; rw [pyStrLe_iff]; exact hx
  | true => right; rw [pyStrLe_iff]; exact pyLt_asymm _ _ hx⟩

instance pyLeRel_isTrans : IsTrans String pyLeRel := ⟨by
  intro a b c hab hbc
  unfold pyLeRel at hab hbc ⊢
  rw [pyStrLe_iff] at hab hbc ⊢
  cases hCA : pyLtChars c.data a.data with
  | false => rfl
  | true =>
    exfalso
    cases hAB : pyLtChars a.data b.data with
    | true =>
      have h3 := pyLt_trans _ _ _ hCA hAB
      rw [hbc] at h3
      exact absurd h3 (by decide)
    | false =>
      have heq := pyLt_connex _ _ hAB hab
      rw [heq] at hCA
      rw [hbc] at hCA
      exact absurd hCA (by decide)⟩

theorem getLastSome_mem {l : List String} {m : String} (h : l.getLast? = some m) : m ∈ l := by
  have h' : m ∈ l.getLast? := by rw [Option.mem_def]; exact h
  obtain ⟨hne, heq⟩ := List.mem_getLast?_eq_getLast h'
  rw [heq]
  exact List.getLast_mem hne

theorem sorted_le_getLast :
    ∀ l : List String, l.Sorted pyLeRel →
      ∀ m, l.getLast? = some m → ∀ x ∈ l, pyStrLe x m = true := by
  intro l
  induction l with
  | nil => intro _ m hm; simp at hm
  | cons a t ih =>
    intro hs m hm x hx
    rw [List.sorted_cons] at hs
    cases t with
    | nil =>
      have hma : m = a := by simpa using hm.symm
      have hxa : x = a := by simpa using hx
      rw [hxa, hma, pyStrLe_iff]
      exact pyLt_irrefl _
    | cons b t2 =>
      rw [List.getLast?_cons_cons] at hm
      rcases List.mem_cons.mp hx with rfl | hx2
      · exact hs.1 m (getLastSome_mem hm)
      · exact ih hs.2 m hm x hx2

theorem lastPkgOf_spec {files : List String} {m : String} (h : lastPkgOf files = some m) :
    m ∈ files ∧ pyEndsWith m ".sig" = false ∧
      ∀ x ∈ files, pyEndsWith x ".sig" = false → pyStrLe x m = true := by
  unfold lastPkgOf at h
  have hperm := List.perm_insertionSort pyLeRel (files.filter (fun x => !pyEndsWith x ".sig"))
  have hsorted :=
    List.sorted_insertionSort pyLeRel (files.filter (fun x => !pyEndsWith x ".sig"))
  have hmem := getLastSome_mem h
  have hmns := hperm.mem_iff.mp hmem
  have hmf := List.mem_filter.mp hmns
  refine ⟨hmf.1, by simpa using hmf.2, ?_⟩
  intro x hxf hxs
  have hxns : x ∈ files.filter (fun x => !pyEndsWith x ".sig") :=
    List.mem_filter.mpr ⟨hxf, by simp [hxs]⟩
  exact sorted_le_getLast _ hsorted m h x (hperm.mem_iff.mpr hxns)

theorem lastPkgOf_isSome {files : List String}
    (h : files.filter (fun x => !pyEndsWith x ".sig") ≠ []) : (lastPkgOf files).isSome = true := by
  unfold lastPkgOf
  rw [List.getLast?_isSome]
  intro hempty
  apply h
  have hperm := List.perm_insertionSort pyLeRel (files.filter (fun x => !pyEndsWith x ".sig"))
  rw [hempty] at hperm
  exact hperm.symm.eq_nil

theorem upload_pkg_fields {identifier pkgname directory : String} {entries : List DirEntry}
    {years : List String} {containerOf : String → List TarEntry} {outcome : UploadOutcome}
    {r : RunResult}
    (h : upload_pkg identifier pkgname directory entries years containerOf outcome = .ok r) :
    r.uploadedFiles = selectFiles entries years ∧
      r.representative = lastPkgOf (selectFiles entries years) := by
  simp only [upload_pkg] at h
  split at h
  · rename_i hemp
    injection h with h'
    subst h'
    have hnil : selectFiles entries years = [] := by simpa [List.isEmpty_iff] using hemp
    exact ⟨hnil.symm, by rw [hnil]; rfl⟩
  · split at h
    · exact absurd h (by simp)
    · rename_i lastPkg hlast
      split at h
      · exact absurd h (by simp)
      · rename_i pkginfo hex
        split at h
        · exact absurd h (by simp)
        · rename_i url hurl
          split at h
          · exact absurd h (by simp)
          · rename_i license hlic
            split at h
            · injection h with h'
              subst h'
              exact ⟨rfl, hlast.symm⟩
            · split at h
              · injection h with h'
                subst h'
                exact ⟨rfl, hlast.symm⟩
              · injection h with h'
                subst h'
                exact ⟨rfl, hlast.symm⟩

/-- Concrete directory of four symlink entries (a package with two versions,
each with a detached signature) used to instantiate C3. -/
def c3Entries : List DirEntry :=
  [⟨"pkg-1.0.tar.xz", true, "/pool/repos/2015/pkg-1.0.tar.xz"⟩,
   ⟨"pkg-1.0.tar.xz.sig", true, "/pool/repos/2015/pkg-1.0.tar.xz.sig"⟩,
   ⟨"pkg-2.0.tar.xz", true, "/pool/repos/2015/pkg-2.0.tar.xz"⟩,
   ⟨"pkg-2.0.tar.xz.sig", true, "/pool/repos/2015/pkg-2.0.tar.xz.sig"⟩]

/-- Concrete container map providing a minimal `.PKGINFO`. -/
def c3Container : String → List TarEntry :=
  fun _ => [⟨".PKGINFO", "url = u\nlicense = MIT\n"⟩]

/-- Expected observable result of the concrete C3 run. -/
def c3Run : RunResult :=
  ⟨some "pkg-2.0.tar.xz", true,
   ["pkg-1.0.tar.xz", "pkg-1.0.tar.xz.sig", "pkg-2.0.tar.xz", "pkg-2.0.tar.xz.sig"],
   some (descriptionText "pkg" "" "u" "MIT"), some "License: MIT", none, none, []⟩

/-- C3: whenever at least one kept entry is not a `.sig` file the
representative file is defined, it is a kept non-signature path that is
lexicographically greatest among the kept non-signature paths, every normal
run uploads the full kept batch (signatures included) while extracting from
that representative, and the four-file example selects `pkg-2.0.tar.xz`. -/
theorem c3_representative_selection :
    (∀ files : List String,
      files.filter (fun x => !pyEndsWith x ".sig") ≠ [] → (lastPkgOf files).isSome = true) ∧
    (∀ (files : List String) (m : String), lastPkgOf files = some m →
      m ∈ files ∧ pyEndsWith m ".sig" = false ∧
        ∀ x ∈ files, pyEndsWith x ".sig" = false → pyStrLe x m = true) ∧
    (∀ (identifier pkgname directory : String) (entries : List DirEntry)
      (years : List String) (containerOf : String → List TarEntry)
      (outcome : UploadOutcome) (r : RunResult),
      upload_pkg identifier pkgname directory entries years containerOf outcome = .ok r →
      r.uploadedFiles = selectFiles entries years ∧
        r.representative = lastPkgOf (selectFiles entries years)) ∧
    (selectFiles c3Entries ["2015"] =
        ["pkg-1.0.tar.xz", "pkg-1.0.tar.xz.sig", "pkg-2.0.tar.xz", "pkg-2.0.tar.xz.sig"] ∧
      lastPkgOf (selectFiles c3Entries ["2015"]) = some "pkg-2.0.tar.xz") :=
  ⟨fun _ h => lastPkgOf_isSome h,
   fun _ _ h => lastPkgOf_spec h,
   fun _ _ _ _ _ _ _ _ h => upload_pkg_fields h,
   by decide, by decide⟩

theorem c3_representative_selection_witness :
    (lastPkgOf ["pkg-1.0.tar.xz", "pkg-1.0.tar.xz.sig", "pkg-2.0.tar.xz",
        "pkg-2.0.tar.xz.sig"]).isSome = true ∧
    ("pkg-2.0.tar.xz" ∈ ["pkg-1.0.tar.xz", "pkg-1.0.tar.xz.sig", "pkg-2.0.tar.xz",
        "pkg-2.0.tar.xz.sig"] ∧ pyEndsWith "pkg-2.0.tar.xz" ".sig" = false ∧
      ∀ x ∈ ["pkg-1.0.tar.xz", "pkg-1.0.tar.xz.sig", "pkg-2.0.tar.xz", "pkg-2.0.tar.xz.sig"],
        pyEndsWith x ".sig" = false → pyStrLe x "pkg-2.0.tar.xz" = true) ∧
    (c3Run.uploadedFiles = selectFiles c3Entries ["2015"] ∧
      c3Run.representative = lastPkgOf (selectFiles c3Entries ["2015"])) :=
  ⟨c3_representative_selection.1
     ["pkg-1.0.tar.xz", "pkg-1.0.tar.xz.sig", "pkg-2.0.tar.xz", "pkg-2.0.tar.xz.sig"]
     (by decide),
   c3_representative_selection.2.1
     ["pkg-1.0.tar.xz", "pkg-1.0.tar.xz.sig", "pkg-2.0.tar.xz", "pkg-2.0.tar.xz.sig"]
     "pkg-2.0.tar.xz" (by decide),
   c3_representative_selection.2.2.1 "id" "pkg" "/d" c3Entries ["2015"] c3Container
     (.results [200]) c3Run rfl⟩

theorem stringDataInj {s t : String} (h : s.data = t.data) : s = t := by
  cases s; cases t; exact congrArg String.mk h

/-- C4: when the entry stream contains no entry named exactly `.PKGINFO`,
`extract_pkginfo` terminates with the format error — it neither returns a
mapping nor fails with any other error value. -/
theorem c4_missing_pkginfo_fails (entries : List TarEntry)
    (h : ∀ e ∈ entries, e.name ≠ ".PKGINFO") :
    extract_pkginfo entries = .error .formatError := by
  unfold extract_pkginfo
  have hf : entries.find? (fun e => e.name == ".PKGINFO") = none := by
    rw [List.find?_eq_none]
    intro e he
    simp [h e he]
  rw [hf]

theorem c4_missing_pkginfo_fails_witness :
    extract_pkginfo [⟨"foo", "x"⟩, ⟨"usr/bin/foo", "y"⟩] = .error .formatError :=
  c4_missing_pkginfo_fails [⟨"foo", "x"⟩, ⟨"usr/bin/foo", "y"⟩] (by decide)

theorem upload_pkg_empty_eq (identifier pkgname directory : String)
    (entries : List DirEntry) (years : List String) (containerOf : String → List TarEntry)
    (outcome : UploadOutcome) (h : selectFiles entries years = []) :
    upload_pkg identifier pkgname directory entries years containerOf outcome =
      .ok ⟨none, false, [], none, none, none, none, []⟩ := by
  simp only [upload_pkg]
  rw [if_pos (by simp [List.isEmpty_iff, h])]

/-- C7: when no entry survives the year filter, `upload_pkg` is a no-op for
every container content and every upload behaviour: it returns normally, calls
no upload, assembles no description or rights metadata, and prints nothing. -/
theorem c7_empty_batch_noop (identifier pkgname directory : String)
    (entries : List DirEntry) (years : List String) (containerOf : String → List TarEntry)
    (outcome : UploadOutcome) (h : selectFiles entries years = []) :
    upload_pkg identifier pkgname directory entries years containerOf outcome =
      .ok ⟨none, false, [], none, none, none, none, []⟩ :=
  upload_pkg_empty_eq identifier pkgname directory entries years containerOf outcome h

theorem c7_empty_batch_noop_witness :
    upload_pkg "id" "pkg" "/d" [⟨"f.txt", false, ""⟩, ⟨"lnk", true, "/pool/repos/2012/x"⟩]
      ["2013"] (fun _ => []) (.raises "boom") =
      .ok ⟨none, false, [], none, none, none, none, []⟩ :=
  c7_empty_batch_noop "id" "pkg" "/d" [⟨"f.txt", false, ""⟩, ⟨"lnk", true, "/pool/repos/2012/x"⟩]
    ["2013"] (fun _ => []) (.raises "boom") (by decide)

/-- Single-pass sanitization as the spec words it: each of `@`, `+`, `.` is
replaced by `_`, every other character passes through unchanged. -/
def specSanitize (c : Char) : Char :=
  if c = '@' then '_' else if c = '+' then '_' else if c = '.' then '_' else c

theorem clean_name_data (s : String) :
    (clean_name s).data = s.data.map specSanitize := by
  simp only [clean_name, replaceChar, List.map_map]
  have hfun : ((fun c => if c = '.' then '_' else c) ∘ (fun c => if c = '+' then '_' else c) ∘
      (fun c => if c = '@' then '_' else c)) = specSanitize := by
    funext c
    by_cases h1 : c = '@'
    · simp [specSanitize, Function.comp, h1]
    · by_cases h2 : c = '+'
      · simp [specSanitize, Function.comp, h1, h2]
      · by_cases h3 : c = '.'
        · simp [specSanitize, Function.comp, h1, h2, h3]
        · simp [specSanitize, Function.comp, h1, h2, h3]
  rw [hfun]

/-- C8 (counterexample): the package name `a:b` is mapped to the identifier
`archlinux_pkg_a:b`, which contains `:`, a character that is neither
alphanumeric nor `-` nor `_`; so the sanitization invariant fails for
arbitrary names. -/
theorem c8_sanitization_counterexample :
    identifierOfName "a:b" = "archlinux_pkg_a:b" ∧
    ':' ∈ (identifierOfName "a:b").data ∧ identAllowed ':' = false :=
  ⟨by decide, by decide, by decide⟩

/-- C8 (amended): for every package name whose characters are alphanumerics,
`-`, `_`, or among the three sanitized characters `@`, `+`, `.`, the derived
identifier contains only alphanumerics, `-` and `_`. -/
theorem c8_sanitization_invariant (name : String)
    (h : ∀ c ∈ name.data, identAllowed c = true ∨ c = '@' ∨ c = '+' ∨ c = '.') :
    ∀ c ∈ (identifierOfName name).data, identAllowed c = true := by
  intro c hc
  rw [identifierOfName, clean_name_data] at hc
  have happ : ("archlinux_pkg_" ++ name).data = "archlinux_pkg_".data ++ name.data := rfl
  rw [happ, List.map_append] at hc
  rcases List.mem_append.mp hc with h1 | h2
  · have hpre : ∀ x ∈ ("archlinux_pkg_".data).map specSanitize, identAllowed x = true := by
      decide
    exact hpre c h1
  · obtain ⟨c0, hc0, rfl⟩ := List.mem_map.mp h2
    by_cases e1 : c0 = '@'
    · subst e1; decide
    · by_cases e2 : c0 = '+'
      · subst e2; decide
      · by_cases e3 : c0 = '.'
        · subst e3; decide
        · have hg : specSanitize c0 = c0 := by simp [specSanitize, e1, e2, e3]
          rw [hg]
          rcases h c0 hc0 with hall | h1 | h1 | h1
          · exact hall
          · exact absurd h1 e1
          · exact absurd h1 e2
          · exact absurd h1 e3

theorem c8_sanitization_invariant_witness : identAllowed '_' = true :=
  c8_sanitization_invariant "foo+bar@1.2" (by decide) '_' (by decide)

/-- C9: for every package directory the identifier is the fixed prefix
`archlinux_pkg_` followed by the directory's base name with every `@`, `+`,
`.` replaced by `_` and all other characters unchanged; in particular
`foo+bar@1.2` yields `archlinux_pkg_foo_bar_1_2`. -/
theorem c9_identifier_derivation :
    (∀ pkgDir : String, identifierOfDir pkgDir =
      "archlinux_pkg_" ++ String.mk ((basename pkgDir).data.map specSanitize)) ∧
    identifierOfDir "foo+bar@1.2" = "archlinux_pkg_foo_bar_1_2" := by
  constructor
  · intro pkgDir
    apply stringDataInj
    rw [identifierOfDir, identifierOfName, clean_name_data]
    have happ : ("archlinux_pkg_" ++ basename pkgDir).data =
        "archlinux_pkg_".data ++ (basename pkgDir).data := rfl
    rw [happ, List.map_append]
    have hpre : ("archlinux_pkg_".data).map specSanitize = "archlinux_pkg_".data := by decide
    rw [hpre]
    rfl
  · decide

theorem selectFiles_ne_empty_of_lastPkg {entries : List DirEntry} {years : List String}
    {lastPkg : String} (hlast : lastPkgOf (selectFiles entries years) = some lastPkg) :
    (selectFiles entries years).isEmpty = false := by
  cases he : (selectFiles entries years).isEmpty with
  | false => rfl
  | true =>
    have hnil := List.isEmpty_iff.mp he
    rw [hnil] at hlast
    have h0 : lastPkgOf ([] : List String) = none := rfl
    rw [h0] at hlast
    exact Option.noConfusion hlast

/-- Observable result of a run that reaches the upload call, as a function of
the upload outcome. -/
def goodRun (identifier pkgname directory : String) (files : List String)
    (lastPkg : String) (pkginfo : List (String × String)) (u l : String)
    (outcome : UploadOutcome) : RunResult :=
  match outcome with
  | .raises msg =>
    ⟨some lastPkg, true, files, some (descriptionText pkgname (pkgdescOf pkginfo) u l),
     some ("License: " ++ l), none, some (identifier, msg), [directory]⟩
  | .results codes =>
    if codes.all (fun c => c == 200) then
      ⟨some lastPkg, true, files, some (descriptionText pkgname (pkgdescOf pkginfo) u l),
       some ("License: " ++ l), none, none, []⟩
    else
      ⟨some lastPkg, true, files, some (descriptionText pkgname (pkgdescOf pkginfo) u l),
       some ("License: " ++ l),
       some ⟨identifier, (codes.filter (fun c => c == 200)).length,
         (codes.filter (fun c => c == 200)).length +
           (codes.filter (fun c => c != 200)).length,
         codes.toFinset⟩, none, [directory]⟩

theorem upload_pkg_good_eq (identifier pkgname directory : String) (entries : List DirEntry)
    (years : List String) (containerOf : String → List TarEntry) (outcome : UploadOutcome)
    {lastPkg : String} {pkginfo : List (String × String)} {u l : String}
    (hlast : lastPkgOf (selectFiles entries years) = some lastPkg)
    (hex : extract_pkginfo (containerOf lastPkg) = .ok pkginfo)
    (hu : dictGet pkginfo "url" = some u) (hl : dictGet pkginfo "license" = some l) :
    upload_pkg identifier pkgname directory entries years containerOf outcome =
      .ok (goodRun identifier pkgname directory (selectFiles entries years) lastPkg
        pkginfo u l outcome) := by
  have hne := selectFiles_ne_empty_of_lastPkg hlast
  simp only [upload_pkg, hne, Bool.false_eq_true, if_false, hlast, hex, hu, hl]
  cases outcome with
  | raises msg => rfl
  | results codes =>
    simp only [goodRun]
    by_cases hall : (codes.all fun c => c == 200) = true
    · simp only [if_pos hall]
    · simp only [if_neg hall]

theorem filter_length_split (codes : List Nat) :
    (codes.filter (fun c => c == 200)).length + (codes.filter (fun c => c != 200)).length =
      codes.length := by
  induction codes with
  | nil => rfl
  | cons c t ih =>
    simp only [List.filter_cons]
    by_cases h : c = 200
    · simp only [h]
      simp
      omega
    · have h' : (c == 200) = false := by simp [h]
      simp only [h']
      simp [h]
      omega

/-- C5 (counterexample): a directory whose single kept entry has a container
with no `.PKGINFO` makes `upload_pkg` terminate with the propagated extraction
failure instead of returning normally, for an arbitrary upload outcome — the
extraction step sits outside the `try` block. -/
theorem c5_boundary_counterexample :
    upload_pkg "id" "pkg" "/d" [⟨"pkg-1.0.tar.xz", true, "/pool/repos/2013/p"⟩] ["2013"]
      (fun _ => []) (.results []) = .error .formatError := rfl

/-- C5 (amended): `upload_pkg` returns normally for every upload outcome —
including when the upload interface raises — provided the kept batch is empty,
or the representative file exists, its extraction succeeds and the mapping has
the `url` and `license` keys; extraction failures, the missing-representative
case and missing mandatory keys propagate as exceptions instead. -/
theorem c5_upload_errors_caught (identifier pkgname directory : String)
    (entries : List DirEntry) (years : List String) (containerOf : String → List TarEntry)
    (outcome : UploadOutcome)
    (h : selectFiles entries years = [] ∨
      ∃ lastPkg pkginfo, lastPkgOf (selectFiles entries years) = some lastPkg ∧
        extract_pkginfo (containerOf lastPkg) = .ok pkginfo ∧
        (dictGet pkginfo "url").isSome = true ∧ (dictGet pkginfo "license").isSome = true) :
    ∃ r, upload_pkg identifier pkgname directory entries years containerOf outcome = .ok r := by
  rcases h with hnil | ⟨lastPkg, pkginfo, hlast, hex, hurl, hlic⟩
  · exact ⟨_, upload_pkg_empty_eq identifier pkgname directory entries years containerOf
      outcome hnil⟩
  · obtain ⟨u, hu⟩ := Option.isSome_iff_exists.mp hurl
    obtain ⟨l, hl⟩ := Option.isSome_iff_exists.mp hlic
    exact ⟨_, upload_pkg_good_eq identifier pkgname directory entries years containerOf
      outcome hlast hex hu hl⟩

theorem c5_upload_errors_caught_witness :
    ∃ r, upload_pkg "id" "pkg" "/d" c3Entries ["2015"] c3Container (.raises "boom") = .ok r :=
  c5_upload_errors_caught "id" "pkg" "/d" c3Entries ["2015"] c3Container (.raises "boom")
    (Or.inr ⟨"pkg-2.0.tar.xz", [("url", "u"), ("license", "MIT")], by decide, rfl,
      by decide, by decide⟩)

/-- C6 (amended): when the upload call yields per-file status codes that are
not all 200, `upload_pkg` returns normally and writes to the error stream a
diagnostic with the identifier, the succeeded count over the total count, and
the set of distinct status codes observed (successful codes included), while
the source directory path is written to standard output, not to the error
stream; when every code is 200, no report is emitted at all. -/
theorem c6_failure_report (identifier pkgname directory : String)
    (entries : List DirEntry) (years : List String) (containerOf : String → List TarEntry)
    (codes : List Nat) (lastPkg : String) (pkginfo : List (String × String)) (u l : String)
    (hlast : lastPkgOf (selectFiles entries years) = some lastPkg)
    (hex : extract_pkginfo (containerOf lastPkg) = .ok pkginfo)
    (hu : dictGet pkginfo "url" = some u) (hl : dictGet pkginfo "license" = some l) :
    ∃ r, upload_pkg identifier pkgname directory entries years containerOf (.results codes) =
        .ok r ∧
      ((codes.all fun c => c == 200) = false →
        r.stderrReport = some ⟨identifier, (codes.filter (fun c => c == 200)).length,
          codes.length, codes.toFinset⟩ ∧
        r.stdoutLines = [directory] ∧ r.stderrExc = none) ∧
      ((codes.all fun c => c == 200) = true →
        r.stderrReport = none ∧ r.stdoutLines = [] ∧ r.stderrExc = none) := by
  refine ⟨_, upload_pkg_good_eq identifier pkgname directory entries years containerOf
    (.results codes) hlast hex hu hl, ?_, ?_⟩
  · intro hfail
    simp only [goodRun,
      if_neg (by simp [hfail] : ¬((codes.all fun c => c == 200) = true))]
    simp [filter_length_split]
  · intro hall
    simp only [goodRun, if_pos hall]
    simp

theorem c6_failure_report_witness :
    ∃ r, upload_pkg "id" "pkg" "/d" c3Entries ["2015"] c3Container
        (.results [200, 200, 503]) = .ok r ∧
      ((([200, 200, 503] : List Nat).all fun c => c == 200) = false →
        r.stderrReport = some ⟨"id",
          (([200, 200, 503] : List Nat).filter (fun c => c == 200)).length,
          ([200, 200, 503] : List Nat).length, ([200, 200, 503] : List Nat).toFinset⟩ ∧
        r.stdoutLines = ["/d"] ∧ r.stderrExc = none) ∧
      ((([200, 200, 503] : List Nat).all fun c => c == 200) = true →
        r.stderrReport = none ∧ r.stdoutLines = [] ∧ r.stderrExc = none) :=
  c6_failure_report "id" "pkg" "/d" c3Entries ["2015"] c3Container [200, 200, 503]
    "pkg-2.0.tar.xz" [("url", "u"), ("license", "MIT")] "u" "MIT"
    (by decide) rfl (by decide) (by decide)

/-- Expected observable result of the concrete C6 partial-failure run. -/
def c6Run : RunResult :=
  ⟨some "pkg-2.0.tar.xz", true,
   ["pkg-1.0.tar.xz", "pkg-1.0.tar.xz.sig", "pkg-2.0.tar.xz", "pkg-2.0.tar.xz.sig"],
   some (descriptionText "pkg" "" "u" "MIT"), some "License: MIT",
   some ⟨"id", 2, 3, ([200, 200, 503] : List Nat).toFinset⟩, none, ["/d"]⟩

/-- C6 (counterexample): on per-file results `[200, 200, 503]` the stderr
diagnostic carries the identifier, `2`/`3` and the code set `{200, 503}` —
which contains the successful code 200 and is not the set of failing codes
`{503}` — and does not carry the directory path, which is printed to standard
output instead. -/
theorem c6_report_counterexample :
    upload_pkg "id" "pkg" "/d" c3Entries ["2015"] c3Container (.results [200, 200, 503]) =
      .ok c6Run ∧
    c6Run.stderrReport = some ⟨"id", 2, 3, ({200, 503} : Finset Nat)⟩ ∧
    (200 ∈ ({200, 503} : Finset Nat) ∧ ({200, 503} : Finset Nat) ≠ ({503} : Finset Nat)) ∧
    c6Run.stdoutLines = ["/d"] :=
  ⟨rfl, by decide, ⟨by decide, by decide⟩, rfl⟩

/-- C10: with a kept batch whose representative extracts successfully, a
mapping without `url` (or with `url` but without `license`) makes `upload_pkg`
terminate with the corresponding key error for every upload outcome — in
particular no upload is attempted, the result being independent of the upload
outcome — whereas a mapping lacking only `pkgdesc` substitutes the empty
string and continues to the upload call. -/
theorem c10_missing_mandatory_keys (identifier pkgname directory : String)
    (entries : List DirEntry) (years : List String) (containerOf : String → List TarEntry)
    (lastPkg : String) (pkginfo : List (String × String))
    (hlast : lastPkgOf (selectFiles entries years) = some lastPkg)
    (hex : extract_pkginfo (containerOf lastPkg) = .ok pkginfo) :
    (dictGet pkginfo "url" = none → ∀ outcome,
      upload_pkg identifier pkgname directory entries years containerOf outcome =
        .error (.keyError "url")) ∧
    (∀ u, dictGet pkginfo "url" = some u → dictGet pkginfo "license" = none → ∀ outcome,
      upload_pkg identifier pkgname directory entries years containerOf outcome =
        .error (.keyError "license")) ∧
    (∀ u l, dictGet pkginfo "url" = some u → dictGet pkginfo "license" = some l →
      dictGet pkginfo "pkgdesc" = none → ∀ outcome,
      ∃ r, upload_pkg identifier pkgname directory entries years containerOf outcome =
          .ok r ∧
        r.uploadCalled = true ∧ r.description = some (descriptionText pkgname "" u l)) := by
  have hne := selectFiles_ne_empty_of_lastPkg hlast
  refine ⟨?_, ?_, ?_⟩
  · intro hu outcome
    simp only [upload_pkg, hne, Bool.false_eq_true, if_false, hlast, hex, hu]
  · intro u hu hl outcome
    simp only [upload_pkg, hne, Bool.false_eq_true, if_false, hlast, hex, hu, hl]
  · intro u l hu hl hdesc outcome
    have hpd : pkgdescOf pkginfo = "" := by simp [pkgdescOf, hdesc]
    refine ⟨_, upload_pkg_good_eq identifier pkgname directory entries years containerOf
      outcome hlast hex hu hl, ?_, ?_⟩
    · cases outcome with
      | raises msg => rfl
      | results codes =>
        simp only [goodRun]
        by_cases hall : (codes.all fun c => c == 200) = true
        · simp only [if_pos hall]
        · simp only [if_neg hall]
    · cases outcome with
      | raises msg => simp [goodRun, hpd]
      | results codes =>
        simp only [goodRun]
        by_cases hall : (codes.all fun c => c == 200) = true
        · simp only [if_pos hall, hpd]
        · simp only [if_neg hall, hpd]

/-- Concrete container whose `.PKGINFO` lacks the `url` key. -/
def c10Container : String → List TarEntry := fun _ => [⟨".PKGINFO", "license = MIT\n"⟩]

theorem c10_missing_mandatory_keys_witness :
    upload_pkg "id" "pkg" "/d" c3Entries ["2015"] c10Container (.results [200]) =
      .error (.keyError "url") :=
  (c10_missing_mandatory_keys "id" "pkg" "/d" c3Entries ["2015"] c10Container
    "pkg-2.0.tar.xz" [("license", "MIT")] (by decide) rfl).1 rfl (.results [200])
